import Mathlib

/-!
Verification of the BoringSSL revision-roll orchestrator (`roll_boringssl.go`).

The Go program is shallowly embedded: file contents are `String`s (byte lists
via `String.data`), file systems are association lists from paths to contents,
external commands are resolved through an oracle `world`, and the SHA-256
digest is an abstract function `hash : String → String` (only digest equality
matters to the program logic).  Execution is modelled in a state monad with
early termination (`log.Fatal` = `Except.error`).
-/

set_option maxRecDepth 10000

/-- Byte-level model of `readme.WriteAt(data, off)` on a file opened
`O_WRONLY`: bytes `[off, off+|data|)` are replaced, later bytes kept, and the
file grows if the write runs past the end. -/
def writeAt (file : List Char) (off : Nat) (data : List Char) : List Char :=
  file.take off ++ data ++ file.drop (off + data.length)

/-- Model of the in-place byte mutation `rev[hashlen-1] = '/'`: replace the
last element of the list (for the program, the trailing newline of the
`git rev-list` output) with the given character. -/
def setLast (l : List Char) (c : Char) : List Char :=
  l.take (l.length - 1) ++ if l.isEmpty then [] else [c]

/-- The Revision Stamp Editor of `updateZircon` (roll_boringssl.go:176-201),
as a pure function on the marker file's bytes.  `raw` is the raw
`git rev-list` output (revision hash plus trailing newline):
`hashlen := len(raw)`, `raw[hashlen-1] = '/'`,
`off := size - (hashlen+1)` when `hashlen < size` else `0`,
then `WriteAt(raw, off)`. -/
def stampRev (file : List Char) (raw : List Char) : List Char :=
  writeAt file
    (if raw.length < file.length then file.length - (raw.length + 1) else 0)
    (setLast raw '/')

/-- The contiguous byte range `[off, off+n)` of a file. -/
def byteSlice (file : List Char) (off n : Nat) : List Char :=
  (file.drop off).take n

/-- Result of an external command: whether it exited zero, and its captured
combined stdout+stderr. -/
structure CmdResult where
  ok : Bool
  out : String
deriving DecidableEq, Repr

/-- An external command invocation: working directory, program name,
arguments. -/
structure Cmd where
  cwd : String
  name : String
  args : List String
deriving DecidableEq, Repr

/-- Observable events of a roll: successfully executed external commands,
log lines (`infof` / `warnf`), and the in-process `WriteAt` on the README
marker file. -/
inductive Event where
  | ran (c : Cmd)
  | info (msg : String)
  | warn (msg : String)
  | wrote (path : String)
deriving DecidableEq, Repr

/-- A fatal termination (`log.Fatal`): either an external command failed
(carrying the joined command line and its output), a file could not be
opened/statted, or an explicit fatal message. All exit the process with a
non-zero status. -/
inductive Fatal where
  | cmdFailed (cmdline out : String)
  | ioError (path : String)
  | message (msg : String)
deriving DecidableEq, Repr

/-- Mutable state threaded through a roll: the Zircon uboringssl subset tree
(association list from subset-relative stem, with leading slash, to file
content), the accumulated `manual_files` set, and the event trace. -/
structure St where
  zircon : List (String × String)
  manual : List String
  tr : List Event
deriving DecidableEq, Repr

/-- Read-only context of a run: the oracle deciding each external command's
result, the vendored BoringSSL tree contents at walk time (association list
from boring-root-relative path, with leading slash, to content), and the
content-digest function modelling the hex-encoded SHA-256 of `sha256sum`. -/
structure Ctx where
  world : String → String → List String → CmdResult
  boringFs : List (String × String)
  hash : String → String

/-- Configuration resolved from flags (`flag.Parse` plus the
`filepath.Join(*fuchsia, ...)` resolution in `main`). -/
structure Cfg where
  fuchsia : String
  boring : String
  garnet : String
  zircon : String
  commitish : String
  skipFuchsia : Bool
  skipBoring : Bool
  skipRust : Bool
  skipZircon : Bool
  skipGarnet : Bool
  resetF : Bool
  submitF : Bool
deriving DecidableEq, Repr

/-- The execution monad: state transformer with early fatal termination,
modelling `log.Fatal` ending the process. -/
def M (α : Type) : Type := St → St × Except Fatal α

def M.pure {α : Type} (a : α) : M α := fun s => (s, .ok a)

def M.bind {α β : Type} (m : M α) (f : α → M β) : M β := fun s =>
  match m s with
  | (s', .ok a) => f a s'
  | (s', .error e) => (s', .error e)

/-- Model of `filepath.Join` for the well-formed relative paths this program
joins (no cleaning is needed for them). -/
def joinPath (a b : String) : String := a ++ "/" ++ b

/-- Model of `filepath.Rel(base, p)` for the paths this program uses, where
`p = base ++ "/" ++ rel`. -/
def relPath (base p : String) : String := p.drop (base.length + 1)

/-- Model of `strings.TrimSpace`. -/
def isSpaceChar (c : Char) : Bool := c = ' ' || c = '\n' || c = '\t' || c = '\r'

def trimSpace (s : String) : String :=
  ⟨((s.data.dropWhile isSpaceChar).reverse.dropWhile isSpaceChar).reverse⟩

/-- The command line reported on failure:
`strings.Join(append([]string{name}, args...), " ")`. -/
def cmdline (name : String) (args : List String) : String :=
  String.intercalate " " (name :: args)

/-- Model of `infof`. -/
def infoM (msg : String) : M Unit := fun s =>
  ({s with tr := s.tr ++ [.info msg]}, .ok ())

/-- Model of `warnf`. -/
def warnM (msg : String) : M Unit := fun s =>
  ({s with tr := s.tr ++ [.warn msg]}, .ok ())

/-- Model of `log.Fatal` with a message. -/
def fatalM {α : Type} (msg : String) : M α := fun s =>
  (s, .error (.message msg))

/-- The Command Runner `run` (roll_boringssl.go:73-86): consult the world
oracle; on success return the combined output, on failure emit the two
`warnf` diagnostics naming the command line and output and terminate
fatally. -/
def runM (ctx : Ctx) (cwd name : String) (args : List String) : M String :=
  fun s =>
    let r := ctx.world cwd name args
    if r.ok then
      ({s with tr := s.tr ++ [.ran ⟨cwd, name, args⟩]}, .ok r.out)
    else
      ({s with tr := s.tr ++
          [.warn ("Error returned for '" ++ cmdline name args ++ "'"),
           .warn ("Output: " ++ r.out)]},
       .error (.cmdFailed (cmdline name args) r.out))

/-- Association-list lookup used for the modelled file systems. -/
def lookupFs (fs : List (String × String)) (k : String) : Option String :=
  match fs with
  | [] => none
  | p :: rest => if p.1 = k then some p.2 else lookupFs rest k

/-- Overwrite the content of an existing path (what `cp src dst` does to an
existing `dst`). -/
def updateFs : List (String × String) → String → String →
    List (String × String)
  | [], _, _ => []
  | p :: rest, k, v =>
      if p.1 = k then (k, v) :: updateFs rest k v
      else p :: updateFs rest k v

/-- Go map insertion `m[k] = true`: idempotent set insertion. -/
def addPath (l : List String) (k : String) : List String :=
  if k ∈ l then l else l ++ [k]

/-- Exit status of the modelled process: `log.Fatal` exits 1. -/
def exitCode {α : Type} (r : Except Fatal α) : Nat :=
  match r with
  | .ok _ => 0
  | .error _ => 1

/-- The `skipped_files` map (roll_boringssl.go:46-50): uboringssl files never rolled
from BoringSSL. -/
def skipped_files (stem : String) : Bool :=
  stem = "/README.fuchsia.md" || stem = "/rules.mk" || stem = "/stack-note.S"

/-- The `edited_files` map (roll_boringssl.go:52-56): files with manual edits; the
value is the recorded SHA256 digest of the original upstream file. -/
def edited_files (stem : String) : Option String :=
  if stem = "/include/openssl/base.h" then
    some "f7334f90a17f2dccded5d9d361784dbf8291a60ad4c04147a06b2f59e0e49d51"
  else none

/-- The dual-location upstream lookup of the walker
(roll_boringssl.go:215-219): try `filepath.Join(*boring, stem)` first, then
`filepath.Join(*boring, "src", stem)`; returns the chosen path together with
the file's content, or `none` when neither location exists. -/
def resolveUpstream (ctx : Ctx) (cfg : Cfg) (stem : String) :
    Option (String × String) :=
  match lookupFs ctx.boringFs stem with
  | some c => some (cfg.boring ++ stem, c)
  | none =>
    match lookupFs ctx.boringFs ("/src" ++ stem) with
    | some c => some (cfg.boring ++ "/src" ++ stem, c)
    | none => none

/-- One step of the `walker` closure (roll_boringssl.go:204-237) on a single
regular file with subset-relative path `stem`.  Faithful to the source: when
neither upstream candidate exists the stem is recorded in `manual_files` and
then `sha256sum(boringPath)` is called on the nonexistent path, whose
`os.Open` failure is a `log.Fatal` (there is no `return nil` in that branch);
baseline-tracked files are compared against the recorded digest and never
copied; otherwise differing digests trigger `run(*fuchsia, "cp", ...)`. -/
def walkFileM (ctx : Ctx) (cfg : Cfg) (stem : String) : M Unit := fun s =>
  if skipped_files stem then (s, .ok ()) else
  match resolveUpstream ctx cfg stem with
  | none =>
      ({s with manual := addPath s.manual stem},
       .error (.ioError (cfg.boring ++ "/src" ++ stem)))
  | some (bpath, bcontent) =>
      match edited_files stem with
      | some zirconHash =>
          if ctx.hash bcontent ≠ zirconHash then
            ({s with manual := addPath s.manual stem}, .ok ())
          else (s, .ok ())
      | none =>
          match lookupFs s.zircon stem with
          | none => (s, .error (.ioError (cfg.zircon ++ stem)))
          | some zc =>
            if ctx.hash bcontent ≠ ctx.hash zc then
              match runM ctx cfg.fuchsia "cp" [bpath, cfg.zircon ++ stem] s with
              | (s', .ok _) =>
                  ({s' with zircon := updateFs s'.zircon stem bcontent}, .ok ())
              | (s', .error e) => (s', .error e)
            else (s, .ok ())

/-- The walk over a list of subset-relative stems, aborting at the first
fatal step (`log.Fatal` ends the process, and a non-nil walker error would
also end `filepath.Walk`). -/
def walkGo (ctx : Ctx) (cfg : Cfg) : List String → M Unit
  | [] => M.pure ()
  | stem :: rest => fun s =>
      match walkFileM ctx cfg stem s with
      | (s', .ok _) => walkGo ctx cfg rest s'
      | (s', .error e) => (s', .error e)

/-- Model of `filepath.Walk(*zircon, walker)`: visit every file currently in the
subset tree. -/
def walkM (ctx : Ctx) (cfg : Cfg) : M Unit := fun s =>
  walkGo ctx cfg (s.zircon.map Prod.fst) s

/-- State of a single subset file after a successful reconciliation pass:
either it is on the skip-list, or it has an upstream counterpart and either
(a) it is baseline-tracked and the upstream digest matches the baseline or
the file has been flagged for manual intervention, or (b) it is not
baseline-tracked and its digest now agrees with its upstream counterpart's
digest. A file in this state is a no-op for a subsequent pass. -/
def PostFile (ctx : Ctx) (cfg : Cfg) (t : St) (stem : String) : Prop :=
  skipped_files stem = true ∨
  ∃ pb, resolveUpstream ctx cfg stem = some pb ∧
    ((∃ b, edited_files stem = some b ∧
        (ctx.hash pb.2 = b ∨ stem ∈ t.manual)) ∨
     (edited_files stem = none ∧
       ∃ v, lookupFs t.zircon stem = some v ∧ ctx.hash v = ctx.hash pb.2))

/-- The identity function used as a concrete digest in closed evaluations
(digest equality then coincides with content equality). -/
def hashId : String → String := fun c => c

/-- The recorded baseline digest of `/include/openssl/base.h`. -/
def baseHex : String :=
  "f7334f90a17f2dccded5d9d361784dbf8291a60ad4c04147a06b2f59e0e49d51"

def cfgStd : Cfg :=
  { fuchsia := "/f"
    boring := "/f/third_party/boringssl"
    garnet := "/f/garnet/manifest"
    zircon := "/f/zircon/third_party/ulib/uboringssl"
    commitish := "origin/upstream/master"
    skipFuchsia := false, skipBoring := false, skipRust := false
    skipZircon := false, skipGarnet := false
    resetF := false, submitF := false }

def ctxC2 : Ctx :=
  { world := fun _ _ _ => { ok := true, out := "" }
    boringFs := [("/c.c", "zzz")]
    hash := hashId }

def sC2 : St :=
  { zircon := [("/b.c", "bbb"), ("/c.c", "ccc")], manual := [], tr := [] }

def ctxC5w : Ctx :=
  { world := fun _ _ _ => { ok := true, out := "" }
    boringFs := [("/crypto/a.c", "upstream-Y")]
    hash := hashId }

def sC5w : St :=
  { zircon := [("/crypto/a.c", "subset-X")], manual := [], tr := [] }

def ctxC6w : Ctx :=
  { world := fun _ _ _ => { ok := true, out := "" }
    boringFs := [("/include/openssl/base.h", baseHex)]
    hash := hashId }

def sC6w : St :=
  { zircon := [("/include/openssl/base.h", "locally-edited")]
    manual := [], tr := [] }

def ctxC7w : Ctx :=
  { world := fun _ _ _ => { ok := true, out := "" }
    boringFs := [("/crypto/a.c", "same")]
    hash := hashId }

def sC7w : St :=
  { zircon := [("/crypto/a.c", "same")], manual := [], tr := [] }

/-- Model of `resetRepo` (roll_boringssl.go:89-92). -/
def resetRepoM (ctx : Ctx) (repoPath : String) : M Unit :=
  M.bind (runM ctx repoPath "git" ["reset", "--hard"]) fun _ =>
  M.bind (runM ctx repoPath "git" ["checkout", "JIRI_HEAD"]) fun _ =>
  M.pure ()

/-- Model of `getGitRevision` (roll_boringssl.go:95-97): raw `git rev-list` output
(revision plus trailing newline). -/
def getGitRevisionM (ctx : Ctx) (repoPath : String) : M String :=
  runM ctx repoPath "git" ["rev-list", "HEAD", "--max-count=1"]

/-- Model of `updateManifest` (roll_boringssl.go:101-108). -/
def updateManifestM (ctx : Ctx) (cfg : Cfg)
    (elemType repoPath manifest : String) : M Unit :=
  M.bind (getGitRevisionM ctx repoPath) fun out =>
  M.bind (runM ctx cfg.fuchsia "jiri"
    ["edit",
     "-" ++ elemType ++ "=" ++ relPath cfg.fuchsia repoPath ++ "="
       ++ trimSpace out,
     manifest]) fun _ =>
  M.pure ()

/-- Model of `updateFuchsia` (roll_boringssl.go:143-154). -/
def updateFuchsiaM (ctx : Ctx) (cfg : Cfg) : M Unit :=
  M.bind (infoM "  Checking Jiri status...") fun _ =>
  M.bind (runM ctx cfg.fuchsia "jiri" ["status"]) fun out =>
  if out ≠ "" then
    M.bind (warnM "'jiri status' returned results:") fun _ =>
    M.bind (warnM out) fun _ =>
    fatalM
      "Please ensure all projects are on JIRI_HEAD and clean before trying again."
  else
    M.bind (infoM "  Updating via Jiri...") fun _ =>
    M.bind (runM ctx cfg.fuchsia "jiri" ["update"]) fun _ =>
    M.pure ()

/-- Model of `updateBoring` (roll_boringssl.go:156-168). -/
def updateBoringM (ctx : Ctx) (cfg : Cfg) : M Unit :=
  M.bind (infoM "Updating sources...") fun _ =>
  M.bind (runM ctx (joinPath cfg.boring "src") "git" ["fetch"]) fun _ =>
  M.bind (runM ctx (joinPath cfg.boring "src") "git"
    ["checkout", cfg.commitish]) fun _ =>
  M.bind (infoM "Generating build files...") fun _ =>
  M.bind (runM ctx cfg.boring "python"
    [joinPath (joinPath (joinPath cfg.boring "src") "util")
       "generate_build_files.py", "gn"]) fun _ =>
  M.bind (infoM "Updating Jiri manifest...") fun _ =>
  updateManifestM ctx cfg "project" (joinPath cfg.boring "src")
    (joinPath cfg.boring "manifest")

/-- Model of `updateRust` (roll_boringssl.go:170-172). -/
def updateRustM (ctx : Ctx) (cfg : Cfg) : M Unit :=
  M.bind (runM ctx "" (joinPath cfg.boring "rust/boringssl-sys/bindgen.sh")
    []) fun _ =>
  M.pure ()

/-- README stamping part of `updateZircon` (roll_boringssl.go:177-201):
`os.Stat` / `os.OpenFile` fail fatally when the file is absent; otherwise
the `WriteAt` patch of `stampRev` is applied in place. -/
def stampReadmeM (cfg : Cfg) (raw : String) : M Unit := fun s =>
  match lookupFs s.zircon "/README.fuchsia.md" with
  | none => (s, .error (.ioError (joinPath cfg.zircon "README.fuchsia.md")))
  | some content =>
      ({s with
          zircon := updateFs s.zircon "/README.fuchsia.md"
            ⟨stampRev content.data raw.data⟩,
          tr := s.tr ++ [.wrote (joinPath cfg.zircon "README.fuchsia.md")]},
       .ok ())

/-- Model of `updateZircon` (roll_boringssl.go:176-241): stamp the README with the
current revision, then walk the subset tree. -/
def updateZirconM (ctx : Ctx) (cfg : Cfg) : M Unit :=
  M.bind (infoM "  Updating README file...") fun _ =>
  M.bind (getGitRevisionM ctx (joinPath cfg.boring "src")) fun rev =>
  M.bind (stampReadmeM cfg rev) fun _ =>
  M.bind (infoM "  Updating sources from BoringSSL...") fun _ =>
  walkM ctx cfg

/-- Model of `commitChanges` (roll_boringssl.go:126-135). -/
def commitChangesM (ctx : Ctx) (cfg : Cfg) (repoPath : String) : M Unit :=
  M.bind (infoM "  Committing changes...") fun _ =>
  M.bind (getGitRevisionM ctx (joinPath cfg.boring "src")) fun rev =>
  M.bind (runM ctx repoPath "git" ["status", "--short"]) fun out =>
  if out = "" then M.pure ()
  else
    M.bind (runM ctx repoPath "git" ["add", "."]) fun _ =>
    M.bind (runM ctx repoPath "git"
      ["commit", "-m", "[boringssl] Roll to " ++ ⟨rev.data.take 10⟩]) fun _ =>
    M.pure ()

/-- Model of `submitTopic` (roll_boringssl.go:138-140). -/
def submitTopicM (ctx : Ctx) (repoPath topic : String) : M Unit :=
  M.bind (runM ctx repoPath "git"
    ["push", "origin", "HEAD:refs/for/master", "-o", "topic=" ++ topic])
    fun _ =>
  M.pure ()

/-- Model of `updateGarnet` (roll_boringssl.go:243-246). -/
def updateGarnetM (ctx : Ctx) (cfg : Cfg) : M Unit :=
  M.bind (infoM "  Updating Jiri manifest...") fun _ =>
  updateManifestM ctx cfg "import" cfg.boring (joinPath cfg.garnet "third_party")

/-- The `for file := range manual_files { warnf(file) }` loop. -/
def warnAllM : List String → M Unit
  | [] => M.pure ()
  | f :: rest => M.bind (warnM f) fun _ => warnAllM rest

/-- The final `infof("  " + x)` report loops. -/
def infoAllM : List String → M Unit
  | [] => M.pure ()
  | x :: rest => M.bind (infoM ("  " ++ x)) fun _ => infoAllM rest

/-- The `for commit := range commits { commitChanges(commit) }` loop. -/
def commitAllM (ctx : Ctx) (cfg : Cfg) : List String → M Unit
  | [] => M.pure ()
  | repo :: rest =>
      M.bind (commitChangesM ctx cfg repo) fun _ => commitAllM ctx cfg rest

/-- The end-of-run report (roll_boringssl.go:335-356). -/
def reportM (packages tests commits1 : List String) : M Unit :=
  M.bind (if packages.isEmpty then infoM "\nNow, build Zircon."
    else
      M.bind (infoM "\nNow, do a full build with the following packages:")
        fun _ => infoAllM packages) fun _ =>
  M.bind (if tests.isEmpty then M.pure ()
    else
      M.bind (infoM "Then, launch Fuchsia and run the following tests:")
        fun _ => infoAllM tests) fun _ =>
  if commits1.isEmpty then M.pure ()
  else
    M.bind (infoM "If those tests pass; push the commits in:") fun _ =>
    infoAllM commits1

/-- Tail of `main` after the Zircon stage (roll_boringssl.go:314-356): the
manual-intervention gate, then the commit/Garnet block, then the report. -/
def mainTailM (ctx : Ctx) (cfg : Cfg)
    (packages tests commits0 : List String) : M Unit := fun s =>
  if s.manual ≠ [] then
    (M.bind (warnM "ERROR: These files could not be automatically resolved:")
      fun _ =>
     M.bind (warnAllM s.manual) fun _ =>
     fatalM "Please resolve these files and try again.") s
  else
    (M.bind
      (if cfg.skipGarnet then M.pure ()
       else
         M.bind (infoM "Committing changes and updating Garnet...") fun _ =>
         M.bind (commitAllM ctx cfg commits0) fun _ =>
         M.bind (updateGarnetM ctx cfg) fun _ =>
         M.bind (commitChangesM ctx cfg cfg.garnet) fun _ =>
         infoM "Done!") fun _ =>
     reportM packages tests
       (if cfg.skipGarnet then commits0 else addPath commits0 "garnet")) s

/-- The `--reset` workflow (roll_boringssl.go:258-266). -/
def resetAllM (ctx : Ctx) (cfg : Cfg) : M Unit :=
  M.bind (infoM "Resetting Fuchsia...") fun _ =>
  M.bind (resetRepoM ctx cfg.garnet) fun _ =>
  M.bind (resetRepoM ctx cfg.zircon) fun _ =>
  M.bind (resetRepoM ctx cfg.boring) fun _ =>
  M.bind (resetRepoM ctx (joinPath cfg.boring "src")) fun _ =>
  infoM "Done!"

/-- The `--submit` workflow (roll_boringssl.go:268-279); `topic` stands for
the timestamp-derived topic string. -/
def submitAllM (ctx : Ctx) (cfg : Cfg) (topic : String) : M Unit :=
  M.bind (infoM ("Submitting topic '" ++ topic ++ "'...")) fun _ =>
  M.bind (submitTopicM ctx cfg.garnet topic) fun _ =>
  M.bind (submitTopicM ctx cfg.zircon topic) fun _ =>
  M.bind (submitTopicM ctx cfg.boring topic) fun _ =>
  M.bind (submitTopicM ctx (joinPath cfg.boring "src") topic) fun _ =>
  infoM "Done!"

/-- The path resolution at the top of `main` (roll_boringssl.go:254-256). -/
def resolveCfg (cfg : Cfg) : Cfg :=
  { cfg with
      boring := joinPath cfg.fuchsia cfg.boring
      garnet := joinPath cfg.fuchsia cfg.garnet
      zircon := joinPath cfg.fuchsia cfg.zircon }

/-- Model of `main` (roll_boringssl.go:249-357). The pending-action sets built by the
pipeline are insertion-ordered lists. -/
def mainM (ctx : Ctx) (cfg : Cfg) (topic : String) : M Unit :=
  if cfg.fuchsia = "" then
    fatalM "FUCHSIA_DIR not set and --fuchsia not specified"
  else
    let c := resolveCfg cfg
    if c.resetF then resetAllM ctx c
    else if c.submitF then submitAllM ctx c topic
    else
      M.bind (if c.skipFuchsia then M.pure ()
        else
          M.bind (infoM "Synchronizing Fuchsia...") fun _ =>
          M.bind (updateFuchsiaM ctx c) fun _ => infoM "Done!") fun _ =>
      M.bind (if c.skipBoring then M.pure ()
        else
          M.bind (infoM "Updating BoringSSL from upstream...") fun _ =>
          M.bind (updateBoringM ctx c) fun _ => infoM "Done!") fun _ =>
      M.bind (if c.skipRust then M.pure ()
        else
          M.bind (infoM "Updating Rust bindings...") fun _ =>
          M.bind (updateRustM ctx c) fun _ => infoM "Done!") fun _ =>
      M.bind (if c.skipZircon then M.pure ()
        else
          M.bind (infoM "Updating Zircon's uboringssl library...") fun _ =>
          M.bind (updateZirconM ctx c) fun _ => infoM "Done!") fun _ =>
      mainTailM ctx c
        (if c.skipBoring then [] else ["garnet/packages/boringssl"])
        ((if c.skipBoring then [] else
            ["/system/test/disabled/crypto_test", "/system/test/ssl_test"]) ++
         (if c.skipZircon then [] else ["/boot/test/sys/crypto_test"]))
        ((if c.skipBoring then [] else ["third_party/boringssl"]) ++
         (if c.skipZircon then [] else ["zircon"]))

def ctxC10w : Ctx :=
  { world := fun _ _ _ => { ok := true, out := "" }
    boringFs := []
    hash := hashId }

def sEmpty : St := { zircon := [], manual := [], tr := [] }

def sC1w : St := { zircon := [], manual := ["/b.c"], tr := [] }

/-- Trace predicate: the computation only ever appends `ran` events whose
command satisfies `P` (log lines aside). -/
def RanOnly {α : Type} (P : Cmd → Prop) (m : M α) : Prop :=
  ∀ (s : St) (c : Cmd), Event.ran c ∈ ((m s).1).tr →
    Event.ran c ∈ s.tr ∨ P c

/-- The commands the `--reset` workflow is allowed to run: `git reset
--hard` or `git checkout JIRI_HEAD` in one of the four repositories. -/
def ResetCmd (cfg : Cfg) (c : Cmd) : Prop :=
  c.name = "git" ∧
  (c.args = ["reset", "--hard"] ∨ c.args = ["checkout", "JIRI_HEAD"]) ∧
  (c.cwd = cfg.garnet ∨ c.cwd = cfg.zircon ∨ c.cwd = cfg.boring ∨
   c.cwd = joinPath cfg.boring "src")

def cfgC9w : Cfg := { cfgStd with resetF := true, submitF := true }

/-- A computation aborts cleanly on command failure: whenever it terminates
with `cmdFailed cl out`, its trace ends with exactly the two `warnf`
diagnostics naming the failed command line and its captured output — nothing
(no later stage event, no retry) follows them. -/
def CmdFatalEnds {α : Type} (m : M α) : Prop :=
  ∀ (s : St) (cl out : String), (m s).2 = .error (.cmdFailed cl out) →
    ∃ pre, ((m s).1).tr =
      pre ++ [.warn ("Error returned for '" ++ cl ++ "'"),
              .warn ("Output: " ++ out)]

def ctxFail : Ctx :=
  { world := fun _ _ _ => { ok := false, out := "boom" }
    boringFs := []
    hash := hashId }

theorem setLast_append (xs : List Char) (a c : Char) :
    setLast (xs ++ [a]) c = xs ++ [c] := by
  simp [setLast, List.isEmpty_iff]

theorem setLast_length (l : List Char) (c : Char) (h : l ≠ []) :
    (setLast l c).length = l.length := by
  cases l with
  | nil => exact absurd rfl h
  | cons x xs => simp [setLast, List.isEmpty_iff]

theorem writeAt_append (a b data : List Char) :
    writeAt (a ++ b) a.length data = a ++ data ++ b.drop data.length := by
  simp [writeAt, List.take_left, List.drop_append_eq_append_drop]

/-- Round-trip behaviour of the stamp editor on a well-formed marker file:
the file is `head ++ oldRev ++ "/" ++ [c]` (one byte, in practice a newline,
after the trailing slash) and the raw revision input is `newRev ++ "\n"`.
Holds for arbitrary `head` when the revisions have equal length. -/
theorem stampRev_roundtrip (head old new : List Char) (c : Char)
    (hlen : old.length = new.length) :
    stampRev (head ++ old ++ ['/', c]) (new ++ ['\n']) =
      head ++ new ++ ['/', c] := by
  have hraw : setLast (new ++ ['\n']) '/' = new ++ ['/'] := setLast_append new '\n' '/'
  have h1 : head ++ old ++ ['/', c] = head ++ (old ++ ['/', c]) :=
    List.append_assoc head old ['/', c]
  have hsz : (new ++ ['\n']).length < (head ++ old ++ ['/', c]).length := by
    simp [List.length_append]; omega
  have hoff : (head ++ old ++ ['/', c]).length - ((new ++ ['\n']).length + 1)
      = head.length := by
    simp [List.length_append]; omega
  rw [stampRev, if_pos hsz, hraw, hoff, h1, writeAt_append]
  have hdrop : (old ++ ['/', c]).drop (new ++ ['/']).length = [c] := by
    rw [List.drop_append_eq_append_drop]
    simp [hlen]
  rw [hdrop]
  simp [List.append_assoc]

theorem stampRev_slice (file raw : List Char) (h0 : raw ≠ [])
    (h1 : raw.length < file.length) :
    byteSlice (stampRev file raw) (file.length - (raw.length + 1)) raw.length
      = setLast raw '/' := by
  have hlen := setLast_length raw '/' h0
  have hofflen : (file.take (file.length - (raw.length + 1))).length
      = file.length - (raw.length + 1) := by
    rw [List.length_take]; omega
  rw [byteSlice, stampRev, if_pos h1, writeAt]
  rw [List.append_assoc, List.drop_append_eq_append_drop, hofflen]
  simp [List.take_append_eq_append_take, hlen]

/-- C3 (amended): the Revision Stamp Editor performs no prefix validation and
reports no `FormatError`: it unconditionally overwrites the trailing revision
span, so a marker file whose existing bytes at the computed offset differ
from the bytes being written IS modified rather than left untouched. -/
theorem C3_stamp_modifies_malformed (file raw : List Char) (h0 : raw ≠ [])
    (h1 : raw.length < file.length)
    (h2 : byteSlice file (file.length - (raw.length + 1)) raw.length
            ≠ setLast raw '/') :
    stampRev file raw ≠ file := by
  intro heq
  have hs := stampRev_slice file raw h0 h1
  rw [heq] at hs
  exact h2 hs

/-- C3 counterexample: a malformed marker file (`"XXXXXX"`, which does not end
in any URL-prefix/revision format) is modified by the stamp editor, refuting
the claim that malformed files are left completely unmodified with a
`FormatError`. -/
theorem C3_cex_malformed_file_modified :
    stampRev "XXXXXX".data "ab\n".data ≠ "XXXXXX".data := by decide

/-- C3 witness: `C3_stamp_modifies_malformed` applied at the same concrete
malformed file. -/
theorem C3_stamp_modifies_malformed_witness :
    stampRev "XXXXXX".data "ab\n".data ≠ "XXXXXX".data :=
  C3_stamp_modifies_malformed "XXXXXX".data "ab\n".data (by decide) (by decide)
    (by decide)

/-- C4 counterexample: the spec-style marker file `"p/+/ab/\n"` (prefix
`p/+/`, old revision `ab`, trailing slash and newline) stamped with the
longer revision `abc` does not yield `"p/+/abc/\n"`: the write clobbers the
final byte of the prefix instead (producing `"p/+abc/\n"`), refuting the
length-independence part of the claim. -/
theorem C4_cex_length_change_mangles :
    stampRev "p/+/ab/\n".data "abc\n".data ≠ "p/+/abc/\n".data := by decide

/-- C4 witness: `stampRev_roundtrip` at the spec's own scenario, prefix
`.../+/`, old revision `deadbeef`, new revision `cafef00d` (equal lengths). -/
theorem stampRev_roundtrip_witness :
    stampRev ("foo/bar/+/".data ++ "deadbeef".data ++ ['/', '\n'])
        ("cafef00d".data ++ ['\n'])
      = "foo/bar/+/".data ++ "cafef00d".data ++ ['/', '\n'] :=
  stampRev_roundtrip "foo/bar/+/".data "deadbeef".data "cafef00d".data '\n'
    (by decide)

theorem addPath_of_mem {l : List String} {k : String} (h : k ∈ l) :
    addPath l k = l := by simp [addPath, h]

theorem mem_addPath {l : List String} {k p : String} :
    p ∈ addPath l k ↔ p ∈ l ∨ p = k := by
  unfold addPath
  split
  · next hk => exact ⟨Or.inl, fun h => h.elim id fun e => e ▸ hk⟩
  · simp

theorem self_mem_addPath (l : List String) (k : String) : k ∈ addPath l k :=
  mem_addPath.mpr (Or.inr rfl)

theorem lookupFs_updateFs_self {fs : List (String × String)} {k : String}
    (v : String) {w : String} (h : lookupFs fs k = some w) :
    lookupFs (updateFs fs k v) k = some v := by
  induction fs with
  | nil => simp [lookupFs] at h
  | cons p rest ih =>
    by_cases hp : p.1 = k
    · simp [updateFs, lookupFs, hp]
    · simp only [lookupFs, if_neg hp] at h
      simp [updateFs, lookupFs, hp]
      exact ih h

theorem lookupFs_updateFs_ne {fs : List (String × String)} {k q : String}
    (v : String) (h : q ≠ k) :
    lookupFs (updateFs fs k v) q = lookupFs fs q := by
  induction fs with
  | nil => simp [updateFs]
  | cons p rest ih =>
    by_cases hp : p.1 = k
    · have h1 : ¬(k = q) := fun e => h e.symm
      simp [updateFs, lookupFs, hp, h1, ih]
    · by_cases hq : p.1 = q <;> simp [updateFs, lookupFs, hp, hq, h, ih]

theorem updateFs_keys (fs : List (String × String)) (k v : String) :
    (updateFs fs k v).map Prod.fst = fs.map Prod.fst := by
  induction fs with
  | nil => simp [updateFs]
  | cons p rest ih =>
    by_cases hp : p.1 = k <;> simp [updateFs, hp, ih]

theorem lookupFs_some_mem_keys {fs : List (String × String)} {q w : String}
    (h : lookupFs fs q = some w) : q ∈ fs.map Prod.fst := by
  induction fs with
  | nil => simp [lookupFs] at h
  | cons p rest ih =>
    by_cases hp : p.1 = q
    · simp [hp]
    · simp only [lookupFs, if_neg hp] at h
      simp [ih h]

/-- Case characterization of the Command Runner. -/
theorem runM_spec (ctx : Ctx) (cwd name : String) (args : List String)
    (s : St) :
    ((ctx.world cwd name args).ok = true ∧
      runM ctx cwd name args s =
        ({s with tr := s.tr ++ [.ran ⟨cwd, name, args⟩]},
         .ok (ctx.world cwd name args).out)) ∨
    ((ctx.world cwd name args).ok = false ∧
      runM ctx cwd name args s =
        ({s with tr := s.tr ++
            [.warn ("Error returned for '" ++ cmdline name args ++ "'"),
             .warn ("Output: " ++ (ctx.world cwd name args).out)]},
         .error (.cmdFailed (cmdline name args)
                  (ctx.world cwd name args).out))) := by
  unfold runM
  by_cases h : (ctx.world cwd name args).ok <;> simp [h]

theorem edited_some_elim {f b : String} (h : edited_files f = some b) :
    f = "/include/openssl/base.h" ∧
    b = "f7334f90a17f2dccded5d9d361784dbf8291a60ad4c04147a06b2f59e0e49d51" := by
  unfold edited_files at h
  split at h
  · next he => exact ⟨he, (Option.some_inj.mp h).symm⟩
  · exact absurd h (by simp)

theorem skipped_of_edited {f b : String} (h : edited_files f = some b) :
    skipped_files f = false := by
  rw [(edited_some_elim h).1]
  decide

/-- Complete case characterization of a single walker step; every other
walker lemma is a corollary.  The cases are: skip-list hit; missing upstream
counterpart (which records the stem and then dies inside `sha256sum`);
baseline-tracked file (manual-flag iff the upstream digest moved off the
baseline, never copied); and the ordinary compare-and-copy path. -/
theorem walkFileM_spec (ctx : Ctx) (cfg : Cfg) (stem : String) (s : St) :
    (skipped_files stem = true ∧ walkFileM ctx cfg stem s = (s, .ok ())) ∨
    (skipped_files stem = false ∧ resolveUpstream ctx cfg stem = none ∧
      walkFileM ctx cfg stem s =
        ({s with manual := addPath s.manual stem},
         .error (.ioError (cfg.boring ++ "/src" ++ stem)))) ∨
    (∃ bp bc b, skipped_files stem = false ∧
      resolveUpstream ctx cfg stem = some (bp, bc) ∧
      edited_files stem = some b ∧
      ((ctx.hash bc ≠ b ∧ walkFileM ctx cfg stem s =
          ({s with manual := addPath s.manual stem}, .ok ())) ∨
       (ctx.hash bc = b ∧ walkFileM ctx cfg stem s = (s, .ok ())))) ∨
    (∃ bp bc, skipped_files stem = false ∧
      resolveUpstream ctx cfg stem = some (bp, bc) ∧
      edited_files stem = none ∧
      ((lookupFs s.zircon stem = none ∧ walkFileM ctx cfg stem s =
          (s, .error (.ioError (cfg.zircon ++ stem)))) ∨
       (∃ zc, lookupFs s.zircon stem = some zc ∧
         ((ctx.hash bc = ctx.hash zc ∧ walkFileM ctx cfg stem s = (s, .ok ())) ∨
          (ctx.hash bc ≠ ctx.hash zc ∧
            (((ctx.world cfg.fuchsia "cp" [bp, cfg.zircon ++ stem]).ok = true ∧
               walkFileM ctx cfg stem s =
                 ({s with
                     zircon := updateFs s.zircon stem bc,
                     tr := s.tr ++ [.ran ⟨cfg.fuchsia, "cp",
                                     [bp, cfg.zircon ++ stem]⟩]}, .ok ())) ∨
             ((ctx.world cfg.fuchsia "cp" [bp, cfg.zircon ++ stem]).ok = false ∧
               walkFileM ctx cfg stem s =
                 ({s with tr := s.tr ++
                     [.warn ("Error returned for '" ++
                        cmdline "cp" [bp, cfg.zircon ++ stem] ++ "'"),
                      .warn ("Output: " ++
                        (ctx.world cfg.fuchsia "cp" [bp, cfg.zircon ++ stem]).out)]},
                  .error (.cmdFailed
                    (cmdline "cp" [bp, cfg.zircon ++ stem])
                    (ctx.world cfg.fuchsia "cp" [bp, cfg.zircon ++ stem]).out))))))))) := by
  by_cases hsk : skipped_files stem = true
  · exact Or.inl ⟨hsk, by unfold walkFileM; rw [if_pos hsk]⟩
  have hsk' : skipped_files stem = false := by
    cases h : skipped_files stem
    · rfl
    · exact absurd h hsk
  right
  cases hres : resolveUpstream ctx cfg stem with
  | none =>
    refine Or.inl ⟨hsk', rfl, ?_⟩
    unfold walkFileM
    rw [hres, if_neg hsk]
  | some pb =>
    obtain ⟨bp, bc⟩ := pb
    right
    cases hed : edited_files stem with
    | some b =>
      left
      refine ⟨bp, bc, b, hsk', rfl, rfl, ?_⟩
      by_cases hne : ctx.hash bc = b
      · refine Or.inr ⟨hne, ?_⟩
        unfold walkFileM
        rw [hres, hed, if_neg hsk]
        dsimp only
        rw [if_neg (not_not_intro hne)]
      · refine Or.inl ⟨hne, ?_⟩
        unfold walkFileM
        rw [hres, hed, if_neg hsk]
        dsimp only
        rw [if_pos hne]
    | none =>
      right
      refine ⟨bp, bc, hsk', rfl, rfl, ?_⟩
      cases hz : lookupFs s.zircon stem with
      | none =>
        refine Or.inl ⟨rfl, ?_⟩
        unfold walkFileM
        rw [hres, hed, if_neg hsk]
        dsimp only
        rw [hz]
      | some zc =>
        right
        refine ⟨zc, rfl, ?_⟩
        by_cases hne : ctx.hash bc = ctx.hash zc
        · refine Or.inl ⟨hne, ?_⟩
          unfold walkFileM
          rw [hres, hed, if_neg hsk]
          dsimp only
          rw [hz]
          dsimp only
          rw [if_neg (not_not_intro hne)]
        · right
          refine ⟨hne, ?_⟩
          rcases runM_spec ctx cfg.fuchsia "cp" [bp, cfg.zircon ++ stem] s with
            ⟨hok, hr⟩ | ⟨hok, hr⟩
          · refine Or.inl ⟨hok, ?_⟩
            unfold walkFileM
            rw [hres, hed, if_neg hsk]
            dsimp only
            rw [hz]
            dsimp only
            rw [if_pos hne, hr]
          · refine Or.inr ⟨hok, ?_⟩
            unfold walkFileM
            rw [hres, hed, if_neg hsk]
            dsimp only
            rw [hz]
            dsimp only
            rw [if_pos hne, hr]

theorem walkFileM_zircon_keys (ctx : Ctx) (cfg : Cfg) (stem : String)
    (s : St) :
    ((walkFileM ctx cfg stem s).1).zircon.map Prod.fst
      = s.zircon.map Prod.fst := by
  rcases walkFileM_spec ctx cfg stem s with
    ⟨_, he⟩ |
    ⟨_, _, he⟩ |
    ⟨bp, bc, b, _, _, _, ⟨_, he⟩ | ⟨_, he⟩⟩ |
    ⟨bp, bc, _, _, _, ⟨_, he⟩ | ⟨zc, _, ⟨_, he⟩ | ⟨_, ⟨_, he⟩ | ⟨_, he⟩⟩⟩⟩ <;>
  rw [he] <;> simp [updateFs_keys]

theorem walkFileM_zircon_frame (ctx : Ctx) (cfg : Cfg) (stem : String)
    (s : St) {q : String} (hq : q ≠ stem) :
    lookupFs ((walkFileM ctx cfg stem s).1).zircon q
      = lookupFs s.zircon q := by
  rcases walkFileM_spec ctx cfg stem s with
    ⟨_, he⟩ |
    ⟨_, _, he⟩ |
    ⟨bp, bc, b, _, _, _, ⟨_, he⟩ | ⟨_, he⟩⟩ |
    ⟨bp, bc, _, _, _, ⟨_, he⟩ | ⟨zc, _, ⟨_, he⟩ | ⟨_, ⟨_, he⟩ | ⟨_, he⟩⟩⟩⟩ <;>
  rw [he] <;> simp [lookupFs_updateFs_ne _ hq]

theorem walkFileM_manual_mono (ctx : Ctx) (cfg : Cfg) (stem : String)
    (s : St) {p : String} (hp : p ∈ s.manual) :
    p ∈ ((walkFileM ctx cfg stem s).1).manual := by
  rcases walkFileM_spec ctx cfg stem s with
    ⟨_, he⟩ |
    ⟨_, _, he⟩ |
    ⟨bp, bc, b, _, _, _, ⟨_, he⟩ | ⟨_, he⟩⟩ |
    ⟨bp, bc, _, _, _, ⟨_, he⟩ | ⟨zc, _, ⟨_, he⟩ | ⟨_, ⟨_, he⟩ | ⟨_, he⟩⟩⟩⟩ <;>
  rw [he] <;> first
    | exact hp
    | exact mem_addPath.mpr (Or.inl hp)

theorem walkFileM_manual_not_mem {ctx : Ctx} {cfg : Cfg} {f : String}
    {pb : String × String} (stem : String) (s : St)
    (hf : f ∉ s.manual)
    (hres : resolveUpstream ctx cfg f = some pb)
    (hsafe : ∀ b, edited_files f = some b → ctx.hash pb.2 = b) :
    f ∉ ((walkFileM ctx cfg stem s).1).manual := by
  have haddne : stem ≠ f → f ∉ addPath s.manual stem := by
    intro hne hmem
    rcases mem_addPath.mp hmem with h | h
    · exact hf h
    · exact hne h.symm
  rcases walkFileM_spec ctx cfg stem s with
    ⟨_, he⟩ |
    ⟨_, hres', he⟩ |
    ⟨bp, bc, b, _, hres', hed, ⟨hne, he⟩ | ⟨hb, he⟩⟩ |
    ⟨bp, bc, _, hres', hed, ⟨hz, he⟩ | ⟨zc, hz, ⟨hq, he⟩ | ⟨hne2, ⟨hok, he⟩ | ⟨hok, he⟩⟩⟩⟩
  · rw [he]; exact hf
  · rw [he]
    by_cases hstem : stem = f
    · subst hstem
      rw [hres] at hres'
      exact absurd hres' (by simp)
    · exact haddne hstem
  · rw [he]
    by_cases hstem : stem = f
    · subst hstem
      rw [hres] at hres'
      have hbc : pb.2 = bc := by
        have := Option.some_inj.mp hres'
        rw [this]
      exact absurd (hbc ▸ hsafe b hed) hne
    · exact haddne hstem
  · rw [he]; exact hf
  · rw [he]; exact hf
  · rw [he]; exact hf
  · rw [he]; exact hf
  · rw [he]; exact hf

theorem walkFileM_preserve {ctx : Ctx} {cfg : Cfg} {f v : String}
    {pb : String × String} (stem : String) (s : St)
    (hres : resolveUpstream ctx cfg f = some pb)
    (hv : lookupFs s.zircon f = some v)
    (hh : ctx.hash v = ctx.hash pb.2) :
    lookupFs ((walkFileM ctx cfg stem s).1).zircon f = some v := by
  by_cases hstem : stem = f
  · subst hstem
    rcases walkFileM_spec ctx cfg stem s with
      ⟨_, he⟩ |
      ⟨_, hres', he⟩ |
      ⟨bp, bc, b, _, hres', hed, ⟨hne, he⟩ | ⟨hb, he⟩⟩ |
      ⟨bp, bc, _, hres', hed, ⟨hz, he⟩ | ⟨zc, hz, ⟨hq, he⟩ | ⟨hne2, ⟨hok, he⟩ | ⟨hok, he⟩⟩⟩⟩ <;>
      rw [he] <;> try exact hv
    -- remaining: the copy branch, impossible because the digests agree
    exfalso
    rw [hres] at hres'
    have hbc : pb.2 = bc := by
      have := Option.some_inj.mp hres'
      rw [this]
    rw [hv] at hz
    have hzv : zc = v := (Option.some_inj.mp hz).symm
    exact hne2 (by rw [← hbc, hzv, hh])
  · rw [walkFileM_zircon_frame ctx cfg stem s (Ne.symm hstem)]
    exact hv

theorem walkFileM_zircon_at_edited (ctx : Ctx) (cfg : Cfg) {f b : String}
    (stem : String) (s : St) (hed : edited_files f = some b) :
    lookupFs ((walkFileM ctx cfg stem s).1).zircon f
      = lookupFs s.zircon f := by
  by_cases hstem : stem = f
  · subst hstem
    rcases walkFileM_spec ctx cfg stem s with
      ⟨_, he⟩ |
      ⟨_, hres', he⟩ |
      ⟨bp, bc, b', _, hres', hed', ⟨hne, he⟩ | ⟨hb, he⟩⟩ |
      ⟨bp, bc, _, hres', hed', ⟨hz, he⟩ | ⟨zc, hz, ⟨hq, he⟩ | ⟨hne2, ⟨hok, he⟩ | ⟨hok, he⟩⟩⟩⟩ <;>
      rw [he] <;> try rfl
    -- remaining: the copy branch, impossible for a baseline-tracked file
    rw [hed] at hed'
    exact absurd hed' (by simp)
  · exact walkFileM_zircon_frame ctx cfg stem s (Ne.symm hstem)

theorem walkFileM_post (ctx : Ctx) (cfg : Cfg) (stem : String) (s : St)
    (hok : (walkFileM ctx cfg stem s).2 = .ok ()) :
    PostFile ctx cfg ((walkFileM ctx cfg stem s).1) stem := by
  rcases walkFileM_spec ctx cfg stem s with
    ⟨hsk, he⟩ |
    ⟨_, hres', he⟩ |
    ⟨bp, bc, b, _, hres', hed, ⟨hne, he⟩ | ⟨hb, he⟩⟩ |
    ⟨bp, bc, _, hres', hed, ⟨hz, he⟩ | ⟨zc, hz, ⟨hq, he⟩ | ⟨hne2, ⟨hok2, he⟩ | ⟨hok2, he⟩⟩⟩⟩
  · exact Or.inl hsk
  · rw [he] at hok; exact absurd hok (by simp)
  · rw [he]
    exact Or.inr ⟨(bp, bc), hres',
      Or.inl ⟨b, hed, Or.inr (self_mem_addPath s.manual stem)⟩⟩
  · rw [he]
    exact Or.inr ⟨(bp, bc), hres', Or.inl ⟨b, hed, Or.inl hb⟩⟩
  · rw [he] at hok; exact absurd hok (by simp)
  · rw [he]
    exact Or.inr ⟨(bp, bc), hres', Or.inr ⟨hed, zc, hz, hq.symm⟩⟩
  · rw [he]
    exact Or.inr ⟨(bp, bc), hres',
      Or.inr ⟨hed, bc, lookupFs_updateFs_self bc hz, rfl⟩⟩
  · rw [he] at hok; exact absurd hok (by simp)

theorem walkFileM_post_preserved {ctx : Ctx} {cfg : Cfg} {f : String}
    (stem : String) (s : St) (hp : PostFile ctx cfg s f) :
    PostFile ctx cfg ((walkFileM ctx cfg stem s).1) f := by
  rcases hp with hsk | ⟨pb, hres, ⟨b, hed, hbm⟩ | ⟨hed, v, hv, hh⟩⟩
  · exact Or.inl hsk
  · refine Or.inr ⟨pb, hres, Or.inl ⟨b, hed, ?_⟩⟩
    rcases hbm with hb | hmem
    · exact Or.inl hb
    · exact Or.inr (walkFileM_manual_mono ctx cfg stem s hmem)
  · exact Or.inr ⟨pb, hres,
      Or.inr ⟨hed, v, walkFileM_preserve stem s hres hv hh, hh⟩⟩

theorem walkFileM_identity {ctx : Ctx} {cfg : Cfg} {stem : String} (t : St)
    (hp : PostFile ctx cfg t stem) :
    walkFileM ctx cfg stem t = (t, .ok ()) := by
  by_cases hsk : skipped_files stem = true
  · unfold walkFileM; rw [if_pos hsk]
  rcases hp with hsk' | ⟨pb, hres, ⟨b, hed, hbm⟩ | ⟨hed, v, hv, hh⟩⟩
  · exact absurd hsk' hsk
  · obtain ⟨bp, bc⟩ := pb
    rcases hbm with hb | hmem
    · unfold walkFileM
      rw [hres, hed, if_neg hsk]
      dsimp only
      rw [if_neg (not_not_intro hb)]
    · by_cases hb : ctx.hash bc = b
      · unfold walkFileM
        rw [hres, hed, if_neg hsk]
        dsimp only
        rw [if_neg (not_not_intro hb)]
      · unfold walkFileM
        rw [hres, hed, if_neg hsk]
        dsimp only
        rw [if_pos hb, addPath_of_mem hmem]
  · obtain ⟨bp, bc⟩ := pb
    unfold walkFileM
    rw [hres, hed, if_neg hsk]
    dsimp only
    rw [hv]
    dsimp only
    rw [if_neg (not_not_intro hh.symm)]

theorem walkFileM_adds_edited {ctx : Ctx} {cfg : Cfg} {f b : String}
    {pb : String × String} (s : St)
    (hed : edited_files f = some b)
    (hres : resolveUpstream ctx cfg f = some pb)
    (hne : ctx.hash pb.2 ≠ b) :
    walkFileM ctx cfg f s = ({s with manual := addPath s.manual f}, .ok ()) := by
  have hsk : skipped_files f = false := skipped_of_edited hed
  obtain ⟨bp, bc⟩ := pb
  unfold walkFileM
  rw [hres, hed, if_neg (by simp [hsk])]
  dsimp only
  rw [if_pos hne]

theorem walkGo_cons (ctx : Ctx) (cfg : Cfg) (p : String) (l : List String)
    (s : St) :
    walkGo ctx cfg (p :: l) s =
      match walkFileM ctx cfg p s with
      | (s', .ok _) => walkGo ctx cfg l s'
      | (s', .error e) => (s', .error e) := by
  conv_lhs => unfold walkGo

theorem walkGo_zircon_keys (ctx : Ctx) (cfg : Cfg) (l : List String) :
    ∀ s : St, ((walkGo ctx cfg l s).1).zircon.map Prod.fst
      = s.zircon.map Prod.fst := by
  induction l with
  | nil => intro s; rfl
  | cons p l ih =>
    intro s
    rw [walkGo_cons]
    have hstep := walkFileM_zircon_keys ctx cfg p s
    cases hw : walkFileM ctx cfg p s with
    | mk s' r =>
      rw [hw] at hstep
      cases r with
      | ok a => exact (ih s').trans hstep
      | error e => exact hstep

theorem walkGo_preserve {ctx : Ctx} {cfg : Cfg} {f v : String}
    {pb : String × String}
    (hres : resolveUpstream ctx cfg f = some pb)
    (hh : ctx.hash v = ctx.hash pb.2) (l : List String) :
    ∀ s : St, lookupFs s.zircon f = some v →
      lookupFs ((walkGo ctx cfg l s).1).zircon f = some v := by
  induction l with
  | nil => intro s hv; exact hv
  | cons p l ih =>
    intro s hv
    rw [walkGo_cons]
    have hstep := walkFileM_preserve p s hres hv hh
    cases hw : walkFileM ctx cfg p s with
    | mk s' r =>
      rw [hw] at hstep
      cases r with
      | ok a => exact ih s' hstep
      | error e => exact hstep

theorem walkGo_manual_mono (ctx : Ctx) (cfg : Cfg) {q : String}
    (l : List String) :
    ∀ s : St, q ∈ s.manual → q ∈ ((walkGo ctx cfg l s).1).manual := by
  induction l with
  | nil => intro s h; exact h
  | cons p l ih =>
    intro s h
    rw [walkGo_cons]
    have hstep := walkFileM_manual_mono ctx cfg p s h
    cases hw : walkFileM ctx cfg p s with
    | mk s' r =>
      rw [hw] at hstep
      cases r with
      | ok a => exact ih s' hstep
      | error e => exact hstep

theorem walkGo_manual_not_mem {ctx : Ctx} {cfg : Cfg} {f : String}
    {pb : String × String}
    (hres : resolveUpstream ctx cfg f = some pb)
    (hsafe : ∀ b, edited_files f = some b → ctx.hash pb.2 = b)
    (l : List String) :
    ∀ s : St, f ∉ s.manual → f ∉ ((walkGo ctx cfg l s).1).manual := by
  induction l with
  | nil => intro s h; exact h
  | cons p l ih =>
    intro s h
    rw [walkGo_cons]
    have hstep := walkFileM_manual_not_mem p s h hres hsafe
    cases hw : walkFileM ctx cfg p s with
    | mk s' r =>
      rw [hw] at hstep
      cases r with
      | ok a => exact ih s' hstep
      | error e => exact hstep

theorem walkGo_zircon_at_edited {ctx : Ctx} {cfg : Cfg} {f b : String}
    (hed : edited_files f = some b) (l : List String) :
    ∀ s : St, lookupFs ((walkGo ctx cfg l s).1).zircon f
      = lookupFs s.zircon f := by
  induction l with
  | nil => intro s; rfl
  | cons p l ih =>
    intro s
    rw [walkGo_cons]
    have hstep := walkFileM_zircon_at_edited ctx cfg p s hed
    cases hw : walkFileM ctx cfg p s with
    | mk s' r =>
      rw [hw] at hstep
      cases r with
      | ok a => exact (ih s').trans hstep
      | error e => exact hstep

theorem walkGo_post_preserved {ctx : Ctx} {cfg : Cfg} {f : String}
    (l : List String) :
    ∀ s : St, PostFile ctx cfg s f →
      PostFile ctx cfg ((walkGo ctx cfg l s).1) f := by
  induction l with
  | nil => intro s h; exact h
  | cons p l ih =>
    intro s h
    rw [walkGo_cons]
    have hstep := walkFileM_post_preserved p s h
    cases hw : walkFileM ctx cfg p s with
    | mk s' r =>
      rw [hw] at hstep
      cases r with
      | ok a => exact ih s' hstep
      | error e => exact hstep

theorem walkGo_post (ctx : Ctx) (cfg : Cfg) (l : List String) :
    ∀ (s : St) (f : String), f ∈ l →
      (walkGo ctx cfg l s).2 = .ok () →
      PostFile ctx cfg ((walkGo ctx cfg l s).1) f := by
  induction l with
  | nil => intro s f hf; exact absurd hf (by simp)
  | cons p l ih =>
    intro s f hf hok
    rw [walkGo_cons] at hok ⊢
    cases hw : walkFileM ctx cfg p s with
    | mk s' r =>
      rw [hw] at hok
      cases r with
      | ok a =>
        rcases List.mem_cons.mp hf with hfp | hfl
        · subst hfp
          have hpost : PostFile ctx cfg s' f := by
            have := walkFileM_post ctx cfg f s (by rw [hw])
            rw [hw] at this
            exact this
          exact walkGo_post_preserved l s' hpost
        · exact ih s' f hfl hok
      | error e => exact absurd hok (by simp)

theorem walkGo_identity (ctx : Ctx) (cfg : Cfg) (l : List String) :
    ∀ t : St, (∀ f ∈ l, PostFile ctx cfg t f) →
      walkGo ctx cfg l t = (t, .ok ()) := by
  induction l with
  | nil => intro t _; rfl
  | cons p l ih =>
    intro t hall
    rw [walkGo_cons, walkFileM_identity t (hall p (by simp))]
    exact ih t fun f hf => hall f (List.mem_cons_of_mem p hf)

theorem walkGo_copies {ctx : Ctx} {cfg : Cfg} {f : String}
    {pb : String × String}
    (hsk : skipped_files f = false)
    (hed : edited_files f = none)
    (hres : resolveUpstream ctx cfg f = some pb)
    (l : List String) :
    ∀ (s : St) (zc : String), f ∈ l →
      lookupFs s.zircon f = some zc →
      ctx.hash zc ≠ ctx.hash pb.2 →
      (walkGo ctx cfg l s).2 = .ok () →
      lookupFs ((walkGo ctx cfg l s).1).zircon f = some pb.2 := by
  induction l with
  | nil => intro s zc hf _ _ _; exact absurd hf (by simp)
  | cons p l ih =>
    intro s zc hf hz hne hok
    rw [walkGo_cons] at hok ⊢
    by_cases hpf : p = f
    · subst hpf
      rcases walkFileM_spec ctx cfg p s with
        ⟨hsk', he⟩ |
        ⟨_, hres', he⟩ |
        ⟨bp, bc, b, _, hres', hed', _⟩ |
        ⟨bp, bc, _, hres', hed', ⟨hz', he⟩ |
          ⟨zc', hz', ⟨hq, he⟩ | ⟨hne2, ⟨hok2, he⟩ | ⟨hok2, he⟩⟩⟩⟩
      · rw [hsk] at hsk'; exact absurd hsk' (by simp)
      · rw [hres] at hres'; exact absurd hres' (by simp)
      · rw [hed] at hed'; exact absurd hed' (by simp)
      · rw [hz] at hz'; exact absurd hz' (by simp)
      · exfalso
        rw [hres] at hres'
        have hbc := Option.some_inj.mp hres'
        rw [hz] at hz'
        have hzz := Option.some_inj.mp hz'
        apply hne
        rw [← hzz] at hq
        rw [hbc]
        exact hq.symm
      · rw [he] at hok ⊢
        rw [hres] at hres'
        have hbc := Option.some_inj.mp hres'
        have hlook : lookupFs (updateFs s.zircon p bc) p = some bc :=
          lookupFs_updateFs_self bc hz
        have hh : ctx.hash bc = ctx.hash pb.2 := by rw [hbc]
        have := walkGo_preserve hres hh l
          { s with zircon := updateFs s.zircon p bc,
                   tr := s.tr ++ [.ran ⟨cfg.fuchsia, "cp",
                                   [bp, cfg.zircon ++ p]⟩] } hlook
        rw [hbc]
        exact this
      · rw [he] at hok; exact absurd hok (by simp)
    · cases hw : walkFileM ctx cfg p s with
      | mk s' r =>
        rw [hw] at hok
        cases r with
        | ok a =>
          have hfr := walkFileM_zircon_frame ctx cfg p s
            (fun e => hpf e.symm)
          rw [hw] at hfr
          exact ih s' zc ((List.mem_cons.mp hf).resolve_left
            (fun e => hpf e.symm)) (hfr.trans hz) hne hok
        | error e => exact absurd hok (by simp)

theorem walkGo_adds_edited {ctx : Ctx} {cfg : Cfg} {f b : String}
    {pb : String × String}
    (hed : edited_files f = some b)
    (hres : resolveUpstream ctx cfg f = some pb)
    (hne : ctx.hash pb.2 ≠ b) (l : List String) :
    ∀ s : St, f ∈ l → (walkGo ctx cfg l s).2 = .ok () →
      f ∈ ((walkGo ctx cfg l s).1).manual := by
  induction l with
  | nil => intro s hf _; exact absurd hf (by simp)
  | cons p l ih =>
    intro s hf hok
    rw [walkGo_cons] at hok ⊢
    by_cases hpf : p = f
    · subst hpf
      rw [walkFileM_adds_edited s hed hres hne] at hok ⊢
      exact walkGo_manual_mono ctx cfg l _ (self_mem_addPath s.manual p)
    · cases hw : walkFileM ctx cfg p s with
      | mk s' r =>
        rw [hw] at hok
        cases r with
        | ok a =>
          exact ih s' ((List.mem_cons.mp hf).resolve_left
            (fun e => hpf e.symm)) hok
        | error e => exact absurd hok (by simp)

/-- C2 (code bug): a subset containing `/b.c` with no upstream counterpart at
either candidate location.  The walker records `/b.c` in the
Manual-Intervention Set but then — lacking a `return nil` after
`manual_files[stem] = true` (roll_boringssl.go:220-222) — falls through to
`sha256sum(boringPath)` on the nonexistent path, whose `os.Open` failure is a
`log.Fatal`: the process dies mid-walk.  The remaining subset file `/c.c`
(whose digest differs from its upstream counterpart `zzz`) is never visited
and never copied, and the flagged-path listing in `main` is never reached,
contradicting the claim that the walk runs to completion.  The exit status is
non-zero, as the claim says. -/
theorem C2_missing_upstream_kills_walk :
    walkM ctxC2 cfgStd sC2 =
      ({ zircon := [("/b.c", "bbb"), ("/c.c", "ccc")], manual := ["/b.c"],
         tr := [] },
       .error (.ioError "/f/third_party/boringssl/src/b.c")) ∧
    exitCode (walkM ctxC2 cfgStd sC2).2 ≠ 0 := by
  constructor
  · rfl
  · decide

/-- C5 counterexample: the baseline-tracked file `/include/openssl/base.h`
is not in the skip-list and its digest (`hashId`, i.e. the content itself,
here `"locally-edited"`) differs from its upstream counterpart's digest
(`baseHex`), yet reconciliation leaves it unchanged — its digest still
differs from upstream afterwards — because baseline-tracked files are never
copied.  This refutes the claim as stated, which excepts only skip-list
files. -/
theorem C5_cex_baseline_file_not_copied :
    walkM
      { world := fun _ _ _ => { ok := true, out := "" }
        boringFs := [("/include/openssl/base.h", baseHex)]
        hash := hashId }
      cfgStd
      { zircon := [("/include/openssl/base.h", "locally-edited")]
        manual := [], tr := [] } =
      ({ zircon := [("/include/openssl/base.h", "locally-edited")]
         manual := [], tr := [] }, .ok ()) ∧
    hashId "locally-edited" ≠ hashId baseHex := by
  constructor
  · rfl
  · decide

/-- C5 (amended): for every subset file that is not in the skip-list AND not
tracked by a recorded hand-edited baseline digest, if its digest differs
from its (existing) upstream counterpart's digest and the reconciliation
walk completes, then afterwards the subset file holds exactly the upstream
content (hence equal digests) and the file is not in the
Manual-Intervention Set. -/
theorem C5_changed_file_copied (ctx : Ctx) (cfg : Cfg) (s : St)
    (f : String) (pb : String × String) (zc : String)
    (hsk : skipped_files f = false)
    (hed : edited_files f = none)
    (hres : resolveUpstream ctx cfg f = some pb)
    (hz : lookupFs s.zircon f = some zc)
    (hne : ctx.hash zc ≠ ctx.hash pb.2)
    (hman : f ∉ s.manual)
    (hok : (walkM ctx cfg s).2 = .ok ()) :
    lookupFs ((walkM ctx cfg s).1).zircon f = some pb.2 ∧
    f ∉ ((walkM ctx cfg s).1).manual := by
  have hmem : f ∈ s.zircon.map Prod.fst := lookupFs_some_mem_keys hz
  constructor
  · exact walkGo_copies hsk hed hres _ s zc hmem hz hne hok
  · exact walkGo_manual_not_mem hres
      (fun b hb => absurd hb (by rw [hed]; simp)) _ s hman

/-- C5 witness: `C5_changed_file_copied` at the spec's scenario — subset
`a.c` with digest `X`, upstream `a.c` with digest `Y ≠ X` — after
reconciliation the subset holds the upstream content and `a.c` is not
flagged. -/
theorem C5_changed_file_copied_witness :
    lookupFs ((walkM ctxC5w cfgStd sC5w).1).zircon "/crypto/a.c"
      = some "upstream-Y" ∧
    "/crypto/a.c" ∉ ((walkM ctxC5w cfgStd sC5w).1).manual :=
  C5_changed_file_copied ctxC5w cfgStd sC5w "/crypto/a.c"
    ("/f/third_party/boringssl/crypto/a.c", "upstream-Y") "subset-X"
    (by decide) (by decide) rfl rfl (by decide) (by decide) rfl

/-- C6: a baseline-tracked subset file (one with a recorded hand-edited
digest) that has an upstream counterpart and survives a completed
reconciliation walk is in the Manual-Intervention Set iff the upstream
counterpart's digest differs from the recorded baseline, and its subset
content is never overwritten from upstream in either case. -/
theorem C6_baseline_tracked (ctx : Ctx) (cfg : Cfg) (s : St)
    (f b : String) (pb : String × String)
    (hed : edited_files f = some b)
    (hres : resolveUpstream ctx cfg f = some pb)
    (hman : f ∉ s.manual)
    (hmem : f ∈ s.zircon.map Prod.fst)
    (hok : (walkM ctx cfg s).2 = .ok ()) :
    (f ∈ ((walkM ctx cfg s).1).manual ↔ ctx.hash pb.2 ≠ b) ∧
    lookupFs ((walkM ctx cfg s).1).zircon f = lookupFs s.zircon f := by
  constructor
  · constructor
    · intro hin
      by_contra hc
      refine walkGo_manual_not_mem hres (fun b' hb' => ?_) _ s hman hin
      rw [hed] at hb'
      exact (Option.some_inj.mp hb') ▸ hc
    · intro hne
      exact walkGo_adds_edited hed hres hne _ s hmem hok
  · exact walkGo_zircon_at_edited hed _ s

/-- C6 witness: `C6_baseline_tracked` at a concrete state where the upstream
counterpart still matches the recorded baseline: the file is not flagged and
not copied. -/
theorem C6_baseline_tracked_witness :
    ("/include/openssl/base.h" ∈ ((walkM ctxC6w cfgStd sC6w).1).manual ↔
      ctxC6w.hash baseHex ≠ baseHex) ∧
    lookupFs ((walkM ctxC6w cfgStd sC6w).1).zircon "/include/openssl/base.h"
      = lookupFs sC6w.zircon "/include/openssl/base.h" :=
  C6_baseline_tracked ctxC6w cfgStd sC6w "/include/openssl/base.h" baseHex
    ("/f/third_party/boringssl/include/openssl/base.h", baseHex)
    rfl rfl (by decide) (by decide) rfl

/-- C7: (1) a subset file not in the skip-list whose digest already equals
its upstream counterpart's digest is left with exactly its original content
by the reconciliation walk (no write to it occurs); and (2) reconciliation
is idempotent: a completed walk re-run from its own result state is a
no-op — it succeeds and returns the state unchanged (no file writes, no
events, second run included). -/
theorem C7_reconcile_idempotent (ctx : Ctx) (cfg : Cfg) :
    (∀ (s : St) (f : String) (pb : String × String) (v : String),
       skipped_files f = false →
       resolveUpstream ctx cfg f = some pb →
       lookupFs s.zircon f = some v →
       ctx.hash v = ctx.hash pb.2 →
       lookupFs ((walkM ctx cfg s).1).zircon f = some v) ∧
    (∀ s s₁ : St, walkM ctx cfg s = (s₁, .ok ()) →
       walkM ctx cfg s₁ = (s₁, .ok ())) := by
  constructor
  · intro s f pb v _ hres hv hh
    exact walkGo_preserve hres hh _ s hv
  · intro s s₁ hok
    have hok' : walkGo ctx cfg (s.zircon.map Prod.fst) s = (s₁, .ok ()) := hok
    have hpost : ∀ f ∈ s.zircon.map Prod.fst, PostFile ctx cfg s₁ f := by
      intro f hf
      have hp := walkGo_post ctx cfg (s.zircon.map Prod.fst) s f hf
        (by rw [hok'])
      rw [hok'] at hp
      exact hp
    have hkeys : s₁.zircon.map Prod.fst = s.zircon.map Prod.fst := by
      have hk := walkGo_zircon_keys ctx cfg (s.zircon.map Prod.fst) s
      rw [hok'] at hk
      exact hk
    show walkGo ctx cfg (s₁.zircon.map Prod.fst) s₁ = (s₁, .ok ())
    rw [hkeys]
    exact walkGo_identity ctx cfg _ s₁ hpost

/-- C7 witness: `C7_reconcile_idempotent` at a concrete state whose single
file already matches upstream: no write occurs and re-running the walk is a
no-op. -/
theorem C7_reconcile_idempotent_witness :
    lookupFs ((walkM ctxC7w cfgStd sC7w).1).zircon "/crypto/a.c"
      = some "same" ∧
    walkM ctxC7w cfgStd sC7w = (sC7w, .ok ()) :=
  ⟨(C7_reconcile_idempotent ctxC7w cfgStd).1 sC7w "/crypto/a.c"
      ("/f/third_party/boringssl/crypto/a.c", "same") "same"
      (by decide) rfl rfl rfl,
   (C7_reconcile_idempotent ctxC7w cfgStd).2 sC7w sC7w rfl⟩

theorem warnAllM_spec (l : List String) : ∀ s : St,
    warnAllM l s = ({s with tr := s.tr ++ l.map Event.warn}, .ok ()) := by
  induction l with
  | nil =>
    intro s
    show (s, Except.ok ()) = _
    simp
  | cons f rest ih =>
    intro s
    show (M.bind (warnM f) fun _ => warnAllM rest) s = _
    simp [M.bind, warnM, ih]

/-- C10: when `git status --short` reports a clean tree, `commitChanges`
runs no `git add` and creates no commit: the only events added are the info
line and the two read-only commands (`git rev-list` and `git status`), so
the repository's history is untouched. -/
theorem C10_no_commit_when_clean (ctx : Ctx) (cfg : Cfg) (repoPath : String)
    (s : St)
    (hrev : (ctx.world (joinPath cfg.boring "src") "git"
              ["rev-list", "HEAD", "--max-count=1"]).ok = true)
    (hst : ctx.world repoPath "git" ["status", "--short"]
            = { ok := true, out := "" }) :
    commitChangesM ctx cfg repoPath s =
      ({s with tr := s.tr ++
          [.info "  Committing changes...",
           .ran ⟨joinPath cfg.boring "src", "git",
                 ["rev-list", "HEAD", "--max-count=1"]⟩,
           .ran ⟨repoPath, "git", ["status", "--short"]⟩]},
       .ok ()) := by
  unfold commitChangesM getGitRevisionM
  simp [M.bind, M.pure, infoM, runM, hrev, hst]

/-- C10 witness: `C10_no_commit_when_clean` at a concrete world whose
`git status --short` output is empty. -/
theorem C10_no_commit_when_clean_witness :
    commitChangesM ctxC10w cfgStd "/f/zircon" sEmpty =
      ({sEmpty with tr :=
          [.info "  Committing changes...",
           .ran ⟨joinPath cfgStd.boring "src", "git",
                 ["rev-list", "HEAD", "--max-count=1"]⟩,
           .ran ⟨"/f/zircon", "git", ["status", "--short"]⟩]},
       .ok ()) :=
  C10_no_commit_when_clean ctxC10w cfgStd "/f/zircon" sEmpty rfl rfl

/-- C1: whenever the Manual-Intervention Set is non-empty when control
reaches the tail of `main` after the Restricted-Subset Sync Stage
(roll_boringssl.go:314-333), the orchestrator emits the error header and
one warning per flagged path, terminates fatally with a non-zero exit
status, and adds no external-command event whatsoever to the trace — in
particular the commit stage (`git add`/`git commit`) and the final
manifest-update stage (`updateGarnet`'s `jiri edit`) are never executed. -/
theorem C1_manual_set_halts (ctx : Ctx) (cfg : Cfg)
    (packages tests commits0 : List String) (s : St)
    (hne : s.manual ≠ []) :
    mainTailM ctx cfg packages tests commits0 s =
      ({s with tr := s.tr ++
          (.warn "ERROR: These files could not be automatically resolved:" ::
           s.manual.map Event.warn)},
       .error (.message "Please resolve these files and try again.")) ∧
    exitCode (mainTailM ctx cfg packages tests commits0 s).2 ≠ 0 ∧
    (∀ c : Cmd,
       Event.ran c ∈ ((mainTailM ctx cfg packages tests commits0 s).1).tr →
       Event.ran c ∈ s.tr) := by
  have h1 : mainTailM ctx cfg packages tests commits0 s =
      ({s with tr := s.tr ++
          (.warn "ERROR: These files could not be automatically resolved:" ::
           s.manual.map Event.warn)},
       .error (.message "Please resolve these files and try again.")) := by
    unfold mainTailM
    rw [if_pos hne]
    simp [M.bind, warnM, warnAllM_spec, fatalM]
  refine ⟨h1, ?_, ?_⟩
  · rw [h1]
    simp [exitCode]
  · intro c hc
    rw [h1] at hc
    rcases List.mem_append.mp hc with h | h
    · exact h
    · exfalso
      rcases List.mem_cons.mp h with h' | h'
      · exact absurd h' (by simp)
      · rcases List.mem_map.mp h' with ⟨x, _, hx⟩
        exact absurd hx (by simp)

/-- C1 witness: `C1_manual_set_halts` at a concrete state whose
Manual-Intervention Set is `["/b.c"]`. -/
theorem C1_manual_set_halts_witness :
    mainTailM ctxC2 cfgStd [] [] ["zircon"] sC1w =
      ({sC1w with tr :=
          [.warn "ERROR: These files could not be automatically resolved:",
           .warn "/b.c"]},
       .error (.message "Please resolve these files and try again.")) :=
  (C1_manual_set_halts ctxC2 cfgStd [] [] ["zircon"] sC1w (by decide)).1

theorem ranOnly_pure {α : Type} (P : Cmd → Prop) (a : α) :
    RanOnly P (M.pure a) := fun _ _ h => Or.inl h

theorem ranOnly_bind {α β : Type} {P : Cmd → Prop} {m : M α} {f : α → M β}
    (hm : RanOnly P m) (hf : ∀ a, RanOnly P (f a)) :
    RanOnly P (M.bind m f) := by
  intro s c h
  unfold M.bind at h
  cases hw : m s with
  | mk s' r =>
    rw [hw] at h
    cases r with
    | ok a =>
      rcases hf a s' c h with h' | h'
      · exact hm s c (by rw [hw]; exact h')
      · exact Or.inr h'
    | error e =>
      exact hm s c (by rw [hw]; exact h)

theorem ranOnly_infoM {P : Cmd → Prop} (msg : String) :
    RanOnly P (infoM msg) := by
  intro s c h
  unfold infoM at h
  rcases List.mem_append.mp h with h' | h'
  · exact Or.inl h'
  · exact absurd (List.mem_singleton.mp h') (by simp)

theorem ranOnly_runM {P : Cmd → Prop} (ctx : Ctx) (cwd name : String)
    (args : List String) (hP : P ⟨cwd, name, args⟩) :
    RanOnly P (runM ctx cwd name args) := by
  intro s c h
  rcases runM_spec ctx cwd name args s with ⟨_, he⟩ | ⟨_, he⟩ <;> rw [he] at h
  · rcases List.mem_append.mp h with h' | h'
    · exact Or.inl h'
    · have := List.mem_singleton.mp h'
      have hc : c = ⟨cwd, name, args⟩ := by
        cases this
        rfl
      exact Or.inr (hc ▸ hP)
  · rcases List.mem_append.mp h with h' | h'
    · exact Or.inl h'
    · exfalso
      rcases List.mem_cons.mp h' with h'' | h''
      · exact absurd h'' (by simp)
      · exact absurd (List.mem_singleton.mp h'') (by simp)

theorem ranOnly_resetRepoM {cfg : Cfg} (ctx : Ctx) (repo : String)
    (hrepo : repo = cfg.garnet ∨ repo = cfg.zircon ∨ repo = cfg.boring ∨
      repo = joinPath cfg.boring "src") :
    RanOnly (ResetCmd cfg) (resetRepoM ctx repo) := by
  unfold resetRepoM
  apply ranOnly_bind
    (ranOnly_runM ctx repo "git" ["reset", "--hard"]
      ⟨rfl, Or.inl rfl, hrepo⟩)
  intro _
  apply ranOnly_bind
    (ranOnly_runM ctx repo "git" ["checkout", "JIRI_HEAD"]
      ⟨rfl, Or.inr rfl, hrepo⟩)
  intro _
  exact ranOnly_pure _ ()

theorem ranOnly_resetAllM (ctx : Ctx) (cfg : Cfg) :
    RanOnly (ResetCmd cfg) (resetAllM ctx cfg) := by
  unfold resetAllM
  apply ranOnly_bind (ranOnly_infoM _)
  intro _
  apply ranOnly_bind (ranOnly_resetRepoM ctx cfg.garnet (Or.inl rfl))
  intro _
  apply ranOnly_bind (ranOnly_resetRepoM ctx cfg.zircon (Or.inr (Or.inl rfl)))
  intro _
  apply ranOnly_bind
    (ranOnly_resetRepoM ctx cfg.boring (Or.inr (Or.inr (Or.inl rfl))))
  intro _
  apply ranOnly_bind
    (ranOnly_resetRepoM ctx (joinPath cfg.boring "src")
      (Or.inr (Or.inr (Or.inr rfl))))
  intro _
  exact ranOnly_infoM _

/-- C9: when both `-reset` and `-submit` are set, `main` takes the reset
branch and returns: the run is exactly the reset workflow, and every
external command it can issue is a `git reset --hard` or `git checkout
JIRI_HEAD` in the garnet, zircon, boring or boring/src repository — no
submit push and no pipeline stage command ever runs.  The spec leaves the
both-set case undefined; the code resolves it in favour of reset. -/
theorem C9_reset_takes_precedence (ctx : Ctx) (cfg : Cfg) (topic : String)
    (s : St)
    (hr : cfg.resetF = true) (hs : cfg.submitF = true)
    (hf : cfg.fuchsia ≠ "") :
    mainM ctx cfg topic s = resetAllM ctx (resolveCfg cfg) s ∧
    (∀ c : Cmd, Event.ran c ∈ ((mainM ctx cfg topic s).1).tr →
       Event.ran c ∈ s.tr ∨ ResetCmd (resolveCfg cfg) c) := by
  have h1 : mainM ctx cfg topic s = resetAllM ctx (resolveCfg cfg) s := by
    unfold mainM
    rw [if_neg hf]
    rw [if_pos (show (resolveCfg cfg).resetF = true from hr)]
  refine ⟨h1, ?_⟩
  intro c hc
  rw [h1] at hc
  exact ranOnly_resetAllM ctx (resolveCfg cfg) s c hc

/-- C9 witness: `C9_reset_takes_precedence` at a concrete configuration
with both flags set. -/
theorem C9_reset_takes_precedence_witness :
    mainM ctxC10w cfgC9w "topic" sEmpty
      = resetAllM ctxC10w (resolveCfg cfgC9w) sEmpty :=
  (C9_reset_takes_precedence ctxC10w cfgC9w "topic" sEmpty rfl rfl
    (by decide)).1

theorem cfe_pure {α : Type} (a : α) : CmdFatalEnds (M.pure a) := by
  intro s cl out h
  exact absurd h (by simp [M.pure])

theorem cfe_infoM (msg : String) : CmdFatalEnds (infoM msg) := by
  intro s cl out h
  exact absurd h (by simp [infoM])

theorem cfe_warnM (msg : String) : CmdFatalEnds (warnM msg) := by
  intro s cl out h
  exact absurd h (by simp [warnM])

theorem cfe_fatalM {α : Type} (msg : String) :
    CmdFatalEnds (fatalM msg : M α) := by
  intro s cl out h
  exact absurd h (by simp [fatalM])

theorem cfe_runM (ctx : Ctx) (cwd name : String) (args : List String) :
    CmdFatalEnds (runM ctx cwd name args) := by
  intro s cl out h
  rcases runM_spec ctx cwd name args s with ⟨_, he⟩ | ⟨_, he⟩ <;>
    rw [he] at h ⊢
  · exact absurd h (by simp)
  · simp only [Except.error.injEq, Fatal.cmdFailed.injEq] at h
    exact ⟨s.tr, by rw [h.1, h.2]⟩

theorem cfe_bind {α β : Type} {m : M α} {f : α → M β}
    (hm : CmdFatalEnds m) (hf : ∀ a, CmdFatalEnds (f a)) :
    CmdFatalEnds (M.bind m f) := by
  intro s cl out h
  unfold M.bind at h ⊢
  cases hw : m s with
  | mk s' r =>
    rw [hw] at h
    cases r with
    | ok a => exact hf a s' cl out h
    | error e =>
      have he : e = .cmdFailed cl out := by simpa using h
      have hx := hm s cl out (by rw [hw, he])
      rw [hw] at hx
      exact hx

theorem cfe_ite {α : Type} (b : Prop) [Decidable b] {m1 m2 : M α}
    (h1 : CmdFatalEnds m1) (h2 : CmdFatalEnds m2) :
    CmdFatalEnds (if b then m1 else m2) := by
  by_cases hb : b
  · rw [if_pos hb]; exact h1
  · rw [if_neg hb]; exact h2

theorem cfe_stampReadmeM (cfg : Cfg) (raw : String) :
    CmdFatalEnds (stampReadmeM cfg raw) := by
  intro s cl out h
  unfold stampReadmeM at h
  cases hl : lookupFs s.zircon "/README.fuchsia.md" <;> rw [hl] at h <;>
    exact absurd h (by simp)

theorem cfe_walkFileM (ctx : Ctx) (cfg : Cfg) (stem : String) :
    CmdFatalEnds (walkFileM ctx cfg stem) := by
  intro s cl out h
  rcases walkFileM_spec ctx cfg stem s with
    ⟨_, he⟩ |
    ⟨_, _, he⟩ |
    ⟨bp, bc, b, _, _, _, ⟨_, he⟩ | ⟨_, he⟩⟩ |
    ⟨bp, bc, _, _, _, ⟨_, he⟩ | ⟨zc, _, ⟨_, he⟩ | ⟨_, ⟨_, he⟩ | ⟨_, he⟩⟩⟩⟩
  · rw [he] at h; exact absurd h (by simp)
  · rw [he] at h; exact absurd h (by simp)
  · rw [he] at h; exact absurd h (by simp)
  · rw [he] at h; exact absurd h (by simp)
  · rw [he] at h; exact absurd h (by simp)
  · rw [he] at h; exact absurd h (by simp)
  · rw [he] at h; exact absurd h (by simp)
  · rw [he] at h ⊢
    simp only [Except.error.injEq, Fatal.cmdFailed.injEq] at h
    exact ⟨s.tr, by rw [h.1, h.2]⟩

theorem cfe_walkGo (ctx : Ctx) (cfg : Cfg) (l : List String) :
    CmdFatalEnds (walkGo ctx cfg l) := by
  induction l with
  | nil => exact cfe_pure ()
  | cons p l ih =>
    intro s cl out h
    rw [walkGo_cons] at h ⊢
    cases hw : walkFileM ctx cfg p s with
    | mk s' r =>
      rw [hw] at h
      cases r with
      | ok a => exact ih s' cl out h
      | error e =>
        have he : e = .cmdFailed cl out := by simpa using h
        have hx := cfe_walkFileM ctx cfg p s cl out (by rw [hw, he])
        rw [hw] at hx
        exact hx

theorem cfe_walkM (ctx : Ctx) (cfg : Cfg) : CmdFatalEnds (walkM ctx cfg) :=
  fun s cl out h =>
    cfe_walkGo ctx cfg (s.zircon.map Prod.fst) s cl out h

theorem cfe_resetRepoM (ctx : Ctx) (repo : String) :
    CmdFatalEnds (resetRepoM ctx repo) := by
  unfold resetRepoM
  exact cfe_bind (cfe_runM ctx repo "git" ["reset", "--hard"]) fun _ =>
    cfe_bind (cfe_runM ctx repo "git" ["checkout", "JIRI_HEAD"]) fun _ =>
      cfe_pure ()

theorem cfe_updateManifestM (ctx : Ctx) (cfg : Cfg)
    (elemType repoPath manifest : String) :
    CmdFatalEnds (updateManifestM ctx cfg elemType repoPath manifest) := by
  unfold updateManifestM getGitRevisionM
  exact cfe_bind (cfe_runM _ _ _ _) fun out =>
    cfe_bind (cfe_runM _ _ _ _) fun _ => cfe_pure ()

theorem cfe_updateFuchsiaM (ctx : Ctx) (cfg : Cfg) :
    CmdFatalEnds (updateFuchsiaM ctx cfg) := by
  unfold updateFuchsiaM
  refine cfe_bind (cfe_infoM _) fun _ => cfe_bind (cfe_runM _ _ _ _) fun out => ?_
  exact cfe_ite _
    (cfe_bind (cfe_warnM _) fun _ => cfe_bind (cfe_warnM _) fun _ => cfe_fatalM _)
    (cfe_bind (cfe_infoM _) fun _ => cfe_bind (cfe_runM _ _ _ _) fun _ =>
      cfe_pure ())

theorem cfe_updateBoringM (ctx : Ctx) (cfg : Cfg) :
    CmdFatalEnds (updateBoringM ctx cfg) := by
  unfold updateBoringM
  exact cfe_bind (cfe_infoM _) fun _ =>
    cfe_bind (cfe_runM _ _ _ _) fun _ =>
    cfe_bind (cfe_runM _ _ _ _) fun _ =>
    cfe_bind (cfe_infoM _) fun _ =>
    cfe_bind (cfe_runM _ _ _ _) fun _ =>
    cfe_bind (cfe_infoM _) fun _ =>
    cfe_updateManifestM ctx cfg _ _ _

theorem cfe_updateRustM (ctx : Ctx) (cfg : Cfg) :
    CmdFatalEnds (updateRustM ctx cfg) := by
  unfold updateRustM
  exact cfe_bind (cfe_runM _ _ _ _) fun _ => cfe_pure ()

theorem cfe_updateZirconM (ctx : Ctx) (cfg : Cfg) :
    CmdFatalEnds (updateZirconM ctx cfg) := by
  unfold updateZirconM getGitRevisionM
  exact cfe_bind (cfe_infoM _) fun _ =>
    cfe_bind (cfe_runM _ _ _ _) fun rev =>
    cfe_bind (cfe_stampReadmeM cfg rev) fun _ =>
    cfe_bind (cfe_infoM _) fun _ =>
    cfe_walkM ctx cfg

theorem cfe_commitChangesM (ctx : Ctx) (cfg : Cfg) (repoPath : String) :
    CmdFatalEnds (commitChangesM ctx cfg repoPath) := by
  unfold commitChangesM getGitRevisionM
  refine cfe_bind (cfe_infoM _) fun _ =>
    cfe_bind (cfe_runM _ _ _ _) fun rev =>
    cfe_bind (cfe_runM _ _ _ _) fun out => ?_
  exact cfe_ite _ (cfe_pure ())
    (cfe_bind (cfe_runM _ _ _ _) fun _ =>
      cfe_bind (cfe_runM _ _ _ _) fun _ => cfe_pure ())

theorem cfe_submitTopicM (ctx : Ctx) (repoPath topic : String) :
    CmdFatalEnds (submitTopicM ctx repoPath topic) := by
  unfold submitTopicM
  exact cfe_bind (cfe_runM _ _ _ _) fun _ => cfe_pure ()

theorem cfe_updateGarnetM (ctx : Ctx) (cfg : Cfg) :
    CmdFatalEnds (updateGarnetM ctx cfg) := by
  unfold updateGarnetM
  exact cfe_bind (cfe_infoM _) fun _ => cfe_updateManifestM ctx cfg _ _ _

theorem cfe_warnAllM (l : List String) : CmdFatalEnds (warnAllM l) := by
  induction l with
  | nil => exact cfe_pure ()
  | cons f rest ih =>
    unfold warnAllM
    exact cfe_bind (cfe_warnM f) fun _ => ih

theorem cfe_infoAllM (l : List String) : CmdFatalEnds (infoAllM l) := by
  induction l with
  | nil => exact cfe_pure ()
  | cons x rest ih =>
    unfold infoAllM
    exact cfe_bind (cfe_infoM _) fun _ => ih

theorem cfe_commitAllM (ctx : Ctx) (cfg : Cfg) (l : List String) :
    CmdFatalEnds (commitAllM ctx cfg l) := by
  induction l with
  | nil => exact cfe_pure ()
  | cons repo rest ih =>
    unfold commitAllM
    exact cfe_bind (cfe_commitChangesM ctx cfg repo) fun _ => ih

theorem cfe_reportM (packages tests commits1 : List String) :
    CmdFatalEnds (reportM packages tests commits1) := by
  unfold reportM
  refine cfe_bind (cfe_ite _ (cfe_infoM _)
    (cfe_bind (cfe_infoM _) fun _ => cfe_infoAllM _)) fun _ => ?_
  refine cfe_bind (cfe_ite _ (cfe_pure ())
    (cfe_bind (cfe_infoM _) fun _ => cfe_infoAllM _)) fun _ => ?_
  exact cfe_ite _ (cfe_pure ())
    (cfe_bind (cfe_infoM _) fun _ => cfe_infoAllM _)

theorem cfe_mainTailM (ctx : Ctx) (cfg : Cfg)
    (packages tests commits0 : List String) :
    CmdFatalEnds (mainTailM ctx cfg packages tests commits0) := by
  intro s cl out h
  unfold mainTailM at h ⊢
  by_cases hm : s.manual ≠ []
  · rw [if_pos hm] at h ⊢
    exact (cfe_bind (cfe_warnM _) fun _ =>
      cfe_bind (cfe_warnAllM s.manual) fun _ => cfe_fatalM _) s cl out h
  · rw [if_neg hm] at h ⊢
    exact (cfe_bind
      (cfe_ite _ (cfe_pure ())
        (cfe_bind (cfe_infoM _) fun _ =>
         cfe_bind (cfe_commitAllM ctx cfg commits0) fun _ =>
         cfe_bind (cfe_updateGarnetM ctx cfg) fun _ =>
         cfe_bind (cfe_commitChangesM ctx cfg cfg.garnet) fun _ =>
         cfe_infoM _)) fun _ =>
      cfe_reportM packages tests _) s cl out h

theorem cfe_resetAllM (ctx : Ctx) (cfg : Cfg) :
    CmdFatalEnds (resetAllM ctx cfg) := by
  unfold resetAllM
  exact cfe_bind (cfe_infoM _) fun _ =>
    cfe_bind (cfe_resetRepoM ctx cfg.garnet) fun _ =>
    cfe_bind (cfe_resetRepoM ctx cfg.zircon) fun _ =>
    cfe_bind (cfe_resetRepoM ctx cfg.boring) fun _ =>
    cfe_bind (cfe_resetRepoM ctx _) fun _ =>
    cfe_infoM _

theorem cfe_submitAllM (ctx : Ctx) (cfg : Cfg) (topic : String) :
    CmdFatalEnds (submitAllM ctx cfg topic) := by
  unfold submitAllM
  exact cfe_bind (cfe_infoM _) fun _ =>
    cfe_bind (cfe_submitTopicM ctx cfg.garnet topic) fun _ =>
    cfe_bind (cfe_submitTopicM ctx cfg.zircon topic) fun _ =>
    cfe_bind (cfe_submitTopicM ctx cfg.boring topic) fun _ =>
    cfe_bind (cfe_submitTopicM ctx _ topic) fun _ =>
    cfe_infoM _

theorem cfe_mainM (ctx : Ctx) (cfg : Cfg) (topic : String) :
    CmdFatalEnds (mainM ctx cfg topic) := by
  intro s cl out h
  unfold mainM at h ⊢
  by_cases hfu : cfg.fuchsia = ""
  · rw [if_pos hfu] at h ⊢
    exact cfe_fatalM _ s cl out h
  · rw [if_neg hfu] at h ⊢
    by_cases hr : (resolveCfg cfg).resetF = true
    · rw [if_pos hr] at h ⊢
      exact cfe_resetAllM ctx _ s cl out h
    · rw [if_neg hr] at h ⊢
      by_cases hs : (resolveCfg cfg).submitF = true
      · rw [if_pos hs] at h ⊢
        exact cfe_submitAllM ctx _ topic s cl out h
      · rw [if_neg hs] at h ⊢
        exact (cfe_bind
          (cfe_ite _ (cfe_pure ())
            (cfe_bind (cfe_infoM _) fun _ =>
             cfe_bind (cfe_updateFuchsiaM ctx _) fun _ => cfe_infoM _))
          fun _ =>
          cfe_bind
            (cfe_ite _ (cfe_pure ())
              (cfe_bind (cfe_infoM _) fun _ =>
               cfe_bind (cfe_updateBoringM ctx _) fun _ => cfe_infoM _))
            fun _ =>
          cfe_bind
            (cfe_ite _ (cfe_pure ())
              (cfe_bind (cfe_infoM _) fun _ =>
               cfe_bind (cfe_updateRustM ctx _) fun _ => cfe_infoM _))
            fun _ =>
          cfe_bind
            (cfe_ite _ (cfe_pure ())
              (cfe_bind (cfe_infoM _) fun _ =>
               cfe_bind (cfe_updateZirconM ctx _) fun _ => cfe_infoM _))
            fun _ =>
          cfe_mainTailM ctx _ _ _ _) s cl out h

/-- C8: if the roll terminates because an external command exited non-zero
(or could not be started), then its exit status is non-zero and the event
trace ends with exactly the two diagnostics naming the failed command line
and its captured combined output — no event whatsoever, and in particular
no later stage's side effect (manifest update, commit), follows the
failure, and nothing is retried.  (The older variant in
src/unnamed/part_002 propagates the same `run` error straight to
`log.Fatal` in its `main`, with the same abort-on-first-failure shape.) -/
theorem C8_command_failure_aborts (ctx : Ctx) (cfg : Cfg) (topic : String)
    (s : St) (cl out : String)
    (h : (mainM ctx cfg topic s).2 = .error (.cmdFailed cl out)) :
    (∃ pre, ((mainM ctx cfg topic s).1).tr =
        pre ++ [.warn ("Error returned for '" ++ cl ++ "'"),
                .warn ("Output: " ++ out)]) ∧
    exitCode (mainM ctx cfg topic s).2 ≠ 0 := by
  refine ⟨cfe_mainM ctx cfg topic s cl out h, ?_⟩
  rw [h]
  simp [exitCode]

/-- C8 witness: `C8_command_failure_aborts` at a world where every command
fails: the roll dies at its very first command (`jiri status`) with the
diagnostics for it and a non-zero exit. -/
theorem C8_command_failure_aborts_witness :
    (∃ pre, ((mainM ctxFail cfgStd "topic" sEmpty).1).tr =
        pre ++ [.warn ("Error returned for '" ++ "jiri status" ++ "'"),
                .warn ("Output: " ++ "boom")]) ∧
    exitCode (mainM ctxFail cfgStd "topic" sEmpty).2 ≠ 0 :=
  C8_command_failure_aborts ctxFail cfgStd "topic" sEmpty "jiri status"
    "boom" rfl
